import Mathlib

/-!
Verification of the SPY volatility-regime pipeline
(`volatility_regimes.py` and `streamlit_app.py`).

The pipeline is embedded shallowly: pandas series become `List (Option ℚ)`
(`none` models NaN, i.e. a missing value), pandas quantiles become sorted
order statistics with linear interpolation, and the retry loop of
`load_data` becomes a fuel-indexed recursion recording sleeps and
notifications.  Definitions come first, theorems after.
-/

/-- The three volatility regime labels produced by
`classify_volatility_regimes` / `classify_regimes`. -/
inductive Regime
  | Low
  | Medium
  | High
deriving DecidableEq

/-- Severity order of the labels: Low < Medium < High. -/
def regimeOrd : Regime → ℕ
  | .Low => 0
  | .Medium => 1
  | .High => 2

/-! ## Region extraction

The background-shading loop of `plot_volatility_regimes`
(`volatility_regimes.py` lines 136-160; the Plotly variant in
`streamlit_app.py` lines 207-240 emits the same spans).  A region is
`(label, start, end)` where `start` and `end` are indices into the date
list: the source shades from `dates_list[start]` to `dates_list[end]`.
Interior regions are closed with `end = i`, the index at which a differing
label was seen; the terminal region is closed with `end = len - 1`, the
index of the last date. -/

/-- One pass of the shading loop: `cur` is `current_regime`, `start` is
`start_idx`, `i` the index of the next date.  `pd.isna(regime)` makes the
loop `continue` without touching the state; the trailing `[]` case is the
final-region block after the loop. -/
def rxGo : Option Regime → ℕ → ℕ → List (Option Regime) → List (Regime × ℕ × ℕ)
  | cur, start, i, [] =>
    match cur with
    | some c => if start < i then [(c, start, i - 1)] else []
    | none => []
  | cur, start, i, lab :: rest =>
    match lab with
    | none => rxGo cur start (i + 1) rest
    | some r =>
      if cur ≠ some r then
        (match cur with
          | some c => if start < i then [(c, start, i)] else []
          | none => []) ++ rxGo (some r) i (i + 1) rest
      else rxGo cur start (i + 1) rest

/-- The shading regions emitted for a regime series, as in the source:
state starts as `current_regime = None`, `start_idx = 0`. -/
def extractRegions (labels : List (Option Regime)) : List (Regime × ℕ × ℕ) :=
  rxGo none 0 0 labels

/-- Run-compression of a label list, continuing a run of label `c`:
drops elements equal to the current run label, keeps the first element of
each new run. -/
def compressAfter (c : Regime) : List Regime → List Regime
  | [] => []
  | a :: rest => if a = c then compressAfter c rest else a :: compressAfter a rest

/-- Run-compression of a label list: one representative per maximal run of
equal adjacent labels. -/
def compressRuns : List Regime → List Regime
  | [] => []
  | a :: rest => a :: compressAfter a rest

/-! ## Summary statistics

`get_regime_stats` (`streamlit_app.py` lines 273-298): `value_counts`
counts the non-missing occurrences of each label, `total_days` is
`len(regimes)` — the whole series length including missing entries — and
the percentage is `count / total_days * 100` guarded by
`if total_days > 0 else 0`. -/

/-- The count `regime_counts.get(regime, 0)`: `value_counts` drops NaN, so
this is the number of non-missing occurrences of the label. -/
def countLabel (rs : List (Option Regime)) (r : Regime) : ℕ :=
  (rs.filterMap id).count r

/-- The `stats` mapping built by `get_regime_stats`: for each label, the
pair `(count, percentage)`. -/
def get_regime_stats (rs : List (Option Regime)) (r : Regime) : ℕ × ℚ :=
  (countLabel rs r,
    if 0 < rs.length then (countLabel rs r : ℚ) / (rs.length : ℚ) * 100 else 0)

/-! ## Regime classification

`classify_volatility_regimes` (`volatility_regimes.py` lines 80-104) and
the identical `classify_regimes` (`streamlit_app.py` lines 150-172):
`p33 = volatility.quantile(0.33)`, `p67 = volatility.quantile(0.67)`
computed once, then three boolean-mask assignments in the order Low,
Medium, High on a series that starts all-missing.  pandas `quantile` skips
NaN, sorts the remaining values and linearly interpolates between order
statistics at position `p * (n - 1)`; on an all-NaN series it returns NaN.
Any comparison against NaN is False, so missing volatilities (and all
entries, when the thresholds are NaN) keep the missing label. -/

/-- The non-missing values in ascending order, as pandas `quantile` sorts
them. -/
def sortVols (xs : List ℚ) : List ℚ :=
  List.insertionSort (· ≤ ·) xs

/-- Linear interpolation between order statistics of `v` at fractional
position `h`, as in the numpy/pandas default `interpolation=linear`:
`v[⌊h⌋] + (h - ⌊h⌋) * (v[min(⌊h⌋+1, n-1)] - v[⌊h⌋])`. -/
def interp (v : List ℚ) (h : ℚ) : ℚ :=
  v.getD (Int.floor h).toNat 0
    + (h - ((Int.floor h).toNat : ℚ))
      * (v.getD (min ((Int.floor h).toNat + 1) (v.length - 1)) 0
          - v.getD (Int.floor h).toNat 0)

/-- `Series.quantile(p)`: NaN (modelled `none`) when no non-missing value
exists, else linear interpolation at position `p * (n - 1)` in the sorted
values. -/
def quantileQ (xs : List ℚ) (p : ℚ) : Option ℚ :=
  if sortVols xs = [] then none
  else some (interp (sortVols xs) (p * (((sortVols xs).length : ℚ) - 1)))

/-- `x <= t` under pandas NaN semantics: False when the threshold is
NaN. -/
def leThresh (x : ℚ) (t : Option ℚ) : Bool :=
  match t with
  | none => false
  | some q => decide (x ≤ q)

/-- `x > t` under pandas NaN semantics: False when the threshold is
NaN. -/
def gtThresh (x : ℚ) (t : Option ℚ) : Bool :=
  match t with
  | none => false
  | some q => decide (q < x)

/-- The three mask assignments of the source, applied to one entry.  The
result series starts as all-missing (`dtype=object` full of NaN); the Low
mask is written first, then the Medium mask, then the High mask, each
overwriting what an earlier mask wrote at the same position.  A missing
volatility matches no mask and stays missing. -/
def assignRegime (p33 p67 : Option ℚ) (v : Option ℚ) : Option Regime :=
  match v with
  | none => none
  | some x =>
    let r1 : Option Regime := if leThresh x p33 then some Regime.Low else none
    let r2 : Option Regime :=
      if gtThresh x p33 && leThresh x p67 then some Regime.Medium else r1
    if gtThresh x p67 then some Regime.High else r2

/-- `classify_volatility_regimes` / `classify_regimes`: thresholds from the
two quantiles of the non-missing values, then the per-entry mask
assignment. -/
def classify (vol : List (Option ℚ)) : List (Option Regime) :=
  vol.map (assignRegime (quantileQ (vol.filterMap id) (33 / 100))
    (quantileQ (vol.filterMap id) (67 / 100)))

/-- The labelling rule as the spec words it, in its exact evaluation
order: `vol ≤ p33 → Low`; `p33 < vol ≤ p67 → Medium`; `vol > p67 →
High`. -/
def specLabel (q33 q67 x : ℚ) : Regime :=
  if x ≤ q33 then Regime.Low
  else if x ≤ q67 then Regime.Medium
  else Regime.High

/-! ## Resilient fetch

`load_data` (`streamlit_app.py` lines 23-109): a `for attempt in
range(max_retries)` loop.  Every attempt starts with a sleep: `0.5`
seconds on attempt 0 (politeness), `(2 ** attempt) * 3` seconds on later
attempts (generic backoff).  On an error whose text matches one of the
rate-limit markers, a further `(2 ** attempt) * 5` second sleep precedes
the retry and a single advisory warning is shown on attempt 0 only; with
no attempts left a fixed generic error message is shown.  A non-rate-limit
error retries silently; on the last attempt it surfaces
`"Error downloading data for {ticker}: " + str(e)[:100]`. -/

/-- Whether `small` occurs as a contiguous run starting at the head of
`s`. -/
def beginsWith : List Char → List Char → Bool
  | [], _ => true
  | _ :: _, [] => false
  | p :: ps, c :: cs => p == c && beginsWith ps cs

/-- Whether `pat` occurs contiguously anywhere in `s` (the Python `in`
operator on strings). -/
def containsSub (pat : List Char) : List Char → Bool
  | [] => beginsWith pat []
  | c :: cs => beginsWith pat (c :: cs) || containsSub pat cs

/-- Python `str.lower()`, character by character. -/
def strLower (s : String) : String :=
  String.mk (s.data.map Char.toLower)

/-- The rate-limit classifier of `load_data`: case-insensitive marker
match, except the marker `"429"` which is checked against the original
text. -/
def isRateLimit (e : String) : Bool :=
  containsSub "rate limit".data (strLower e).data
    || containsSub "too many requests".data (strLower e).data
    || containsSub "429".data e.data
    || containsSub "rate limited".data (strLower e).data

/-- The fixed generic message shown when rate-limit retries are
exhausted. -/
def rateLimitFinalMessage : String :=
  "⚠️ **Yahoo Finance rate limit reached.**\n\nPlease wait 1-2 minutes and try again. The app caches data for 1 hour to reduce API calls."

/-- The message shown on the last attempt for a non-rate-limit error:
fixed text plus the error text truncated to its first 100 characters. -/
def otherErrorMessage (ticker e : String) : String :=
  "Error downloading data for " ++ ticker ++ ": " ++ String.mk (e.data.take 100)

/-- What the provider does on a given attempt: returns data, returns an
empty frame, or raises with an error text. -/
inductive Outcome
  | success
  | empty
  | failure (e : String)

/-- Observable trace of one `load_data` call: whether data was returned,
the sleeps performed in order, the number of rate-limit advisory warnings,
and the error messages shown. -/
structure FetchTrace where
  ok : Bool
  sleeps : List ℚ
  warnings : ℕ
  errors : List String
deriving DecidableEq

/-- The attempt loop of `load_data`.  `fuel` counts the attempts that
remain (`maxRetries - attempt`), keeping the recursion structural; all
conditions are the source's, on `attempt` and `maxRetries`. -/
def fetchGo (ticker : String) (provider : ℕ → Outcome) (maxRetries : ℕ) :
    ℕ → ℕ → FetchTrace
  | 0, _ => ⟨false, [], 0, []⟩
  | fuel + 1, attempt =>
    let pre : ℚ := if 0 < attempt then (2 ^ attempt : ℚ) * 3 else 1 / 2
    match provider attempt with
    | .success => ⟨true, [pre], 0, []⟩
    | .empty =>
      if attempt < maxRetries - 1 then
        let t := fetchGo ticker provider maxRetries fuel (attempt + 1)
        ⟨t.ok, pre :: t.sleeps, t.warnings, t.errors⟩
      else ⟨false, [pre], 0, []⟩
    | .failure e =>
      if isRateLimit e then
        if attempt < maxRetries - 1 then
          let w : ℚ := (2 ^ attempt : ℚ) * 5
          let t := fetchGo ticker provider maxRetries fuel (attempt + 1)
          ⟨t.ok, pre :: w :: t.sleeps,
            (if attempt = 0 then 1 else 0) + t.warnings, t.errors⟩
        else ⟨false, [pre], 0, [rateLimitFinalMessage]⟩
      else
        if attempt = maxRetries - 1 then
          ⟨false, [pre], 0, [otherErrorMessage ticker e]⟩
        else
          let t := fetchGo ticker provider maxRetries fuel (attempt + 1)
          ⟨t.ok, pre :: t.sleeps, t.warnings, t.errors⟩

/-- `load_data(ticker, max_retries)` against a provider behaviour: the
loop starts at attempt 0 with the full budget. -/
def load_data (ticker : String) (provider : ℕ → Outcome) (maxRetries : ℕ) :
    FetchTrace :=
  fetchGo ticker provider maxRetries maxRetries 0

/-- The message `load_data` surfaces when the final attempt fails with
error text `e` (rate-limit errors get the fixed message, other errors the
truncated diagnostic). -/
def finalFailureMessage (ticker e : String) : String :=
  if isRateLimit e then rateLimitFinalMessage else otherErrorMessage ticker e

/-! ## Transition matrix

Modelled from the spec: the repository has no transition-estimator code
under `src/` — `estimate_transitions` exists only in the specification
(§4.5).  Adjacent pairs with both sides non-missing are counted per
`(from, to)` cell and each row is normalised by its row total, a
zero-total row being all-zero. -/

/-- Modelled from the spec: the adjacent pairs `(label[t], label[t+1])`
where both sides are non-missing; pairs spanning a missing value are
excluded. -/
def transitionPairs (rs : List (Option Regime)) : List (Regime × Regime) :=
  (rs.zip rs.tail).filterMap (fun p =>
    match p with
    | (some x, some y) => some (x, y)
    | _ => none)

/-- Modelled from the spec: occurrences of the transition `(i, j)` among
the valid adjacent pairs. -/
def countTrans (rs : List (Option Regime)) (i j : Regime) : ℕ :=
  (transitionPairs rs).count (i, j)

/-- Modelled from the spec: the row total for from-label `i`. -/
def rowTotal (rs : List (Option Regime)) (i : Regime) : ℕ :=
  countTrans rs i Regime.Low + countTrans rs i Regime.Medium
    + countTrans rs i Regime.High

/-- Modelled from the spec: the 3×3 transition matrix, rows and columns
indexed by `Regime` in the fixed order Low, Medium, High; each cell is the
count normalised by its row total, and a zero-total row is all-zero. -/
def estimate_transitions (rs : List (Option Regime)) (i j : Regime) : ℚ :=
  if rowTotal rs i = 0 then 0
  else (countTrans rs i j : ℚ) / (rowTotal rs i : ℚ)

/-! ## Rolling volatility

`compute_rolling_volatility` (`volatility_regimes.py` lines 58-77) and the
identical `compute_volatility` (`streamlit_app.py` lines 129-147):
`returns.rolling(window=window).std() * np.sqrt(252)`.  With the default
`min_periods = window`, position `t` is NaN while fewer than `window`
observations exist (`t + 1 < window`), and otherwise the sample standard
deviation of `returns[t-window+1 .. t]`, annualised. -/

/-- Sample variance (`ddof=1`, as pandas `std` uses) of a list of
returns. -/
def sampleVar (xs : List ℚ) : ℚ :=
  ((xs.map (fun x => (x - xs.sum / (xs.length : ℚ)) ^ 2)).sum)
    / ((xs.length : ℚ) - 1)

/-- The annualised rolling volatility series: same index as the input,
NaN until a full window is available, then
`std(returns[t-window+1 .. t]) * sqrt(252)`. -/
noncomputable def compute_volatility (returns : List ℚ) (window : ℕ) :
    List (Option ℝ) :=
  (List.range returns.length).map (fun t =>
    if t + 1 < window then none
    else some (Real.sqrt (sampleVar (((returns.take (t + 1)).drop
      (t + 1 - window)) : List ℚ)) * Real.sqrt 252))

/-! # Theorems -/

/-! ## Region extraction (claims C1, C3) -/

theorem rxGo_some_map_fst (l : List (Option Regime)) :
    ∀ (c : Regime) (start i : ℕ), start < i →
      (rxGo (some c) start i l).map (fun reg => reg.1)
        = c :: compressAfter c (l.filterMap id) := by
  induction l with
  | nil =>
    intro c start i hsi
    simp [rxGo, if_pos hsi, compressAfter]
  | cons lab rest ih =>
    intro c start i hsi
    match lab with
    | none =>
      simpa [rxGo] using ih c start (i + 1) (Nat.lt_succ_of_lt hsi)
    | some r =>
      by_cases hrc : r = c
      · subst hrc
        simp only [rxGo, ne_eq, not_true_eq_false, if_neg, List.filterMap_cons_some, id]
        rw [if_neg (by simp)]
        rw [ih r start (i + 1) (Nat.lt_succ_of_lt hsi)]
        simp [compressAfter]
      · have hne : (some c : Option Regime) ≠ some r := by
          simp [eq_comm]
          intro h
          exact hrc h.symm
        simp only [rxGo, List.filterMap_cons_some, id]
        rw [if_pos hne, if_pos hsi]
        simp only [List.map_append, List.map_cons, List.map_nil]
        rw [ih r i (i + 1) (Nat.lt_succ_self i)]
        simp only [compressAfter]
        rw [if_neg hrc]
        simp

theorem rxGo_none_map_fst (l : List (Option Regime)) :
    ∀ (start i : ℕ),
      (rxGo none start i l).map (fun reg => reg.1)
        = compressRuns (l.filterMap id) := by
  induction l with
  | nil => intro start i; simp [rxGo, compressRuns]
  | cons lab rest ih =>
    intro start i
    match lab with
    | none => simpa [rxGo] using ih start (i + 1)
    | some r =>
      simp only [rxGo, List.filterMap_cons_some, id]
      rw [if_pos (by simp)]
      simp only [List.nil_append]
      rw [rxGo_some_map_fst rest r i (i + 1) (Nat.lt_succ_self i)]
      simp [compressRuns]

/-- Claim C1 (amended): a missing label does not close the current shading
region — the loop skips it and the region keeps running, so the sequence of
emitted region labels is exactly the run-compression of the non-missing
label sequence (gaps neither end a run nor start a region of their own). -/
theorem extractRegions_labels_eq_compressRuns (labels : List (Option Regime)) :
    (extractRegions labels).map (fun reg => reg.1)
      = compressRuns (labels.filterMap id) :=
  rxGo_none_map_fst labels 0 0

/-- Claim C1 (counterexample): for `[Low, missing, Low]` the extractor
emits the single region `(Low, 0, 2)` spanning the missing date at index
1, not two regions split at the gap; for `[Low, missing, Medium]` the
emitted region `(Low, 0, 2)` likewise contains index 1 whose label is
missing.  So a gap does not close the current region and an emitted span
can contain a missing-label date. -/
theorem extractRegions_gap_counterexample :
    extractRegions [some Regime.Low, none, some Regime.Low]
        = [(Regime.Low, 0, 2)] ∧
      extractRegions [some Regime.Low, none, some Regime.Medium]
        = [(Regime.Low, 0, 2), (Regime.Medium, 2, 2)] ∧
      List.getD [some Regime.Low, none, some Regime.Low] 1 none = none ∧
      List.getD [some Regime.Low, none, some Regime.Medium] 1 none = none := by
  decide

/-- Claim C3 (counterexample): on `[Low,Low,Medium,High,High,Medium]` the
extractor does not produce the claimed `(Medium, 5, 6)` terminal region:
the terminal region is closed at the last index itself. -/
theorem extractRegions_scenario_counterexample :
    extractRegions [some Regime.Low, some Regime.Low, some Regime.Medium,
        some Regime.High, some Regime.High, some Regime.Medium]
      ≠ [(Regime.Low, 0, 2), (Regime.Medium, 2, 3),
         (Regime.High, 3, 5), (Regime.Medium, 5, 6)] := by
  decide

/-- Claim C3 (amended): on `[Low,Low,Medium,High,High,Medium]` the regions
are `(Low,0,2), (Medium,2,3), (High,3,5), (Medium,5,5)`: interior regions
end at the index where the next label starts (end-exclusive), but the
terminal region ends at the last index `len - 1` rather than one past it,
so a terminal region of zero length is emitted when the final run has
length one. -/
theorem extractRegions_scenario :
    extractRegions [some Regime.Low, some Regime.Low, some Regime.Medium,
        some Regime.High, some Regime.High, some Regime.Medium]
      = [(Regime.Low, 0, 2), (Regime.Medium, 2, 3),
         (Regime.High, 3, 5), (Regime.Medium, 5, 5)] := by
  decide

/-! ## Summary statistics (claim C2) -/

theorem countLabel_eq_countP (rs : List (Option Regime)) (r : Regime) :
    countLabel rs r = rs.countP (fun ov => ov == some r) := by
  induction rs with
  | nil => rfl
  | cons ov rest ih =>
    match ov with
    | none => simp [countLabel, List.countP_cons] at ih ⊢; omega
    | some x =>
      simp [countLabel, List.countP_cons, List.count_cons] at ih ⊢
      omega

theorem count_three_labels (l : List Regime) :
    l.count Regime.Low + l.count Regime.Medium + l.count Regime.High
      = l.length := by
  induction l with
  | nil => rfl
  | cons a rest ih =>
    cases a <;> simp [List.count_cons] <;> omega

/-- Claim C2 (amended): the summary maps each label to its count of
non-missing occurrences (the three counts add up to the number of
non-missing observations), but the percentage divides by the WHOLE series
length including missing entries, `count / len(regimes) * 100`; it is 0
rather than a division error only when the series is empty. -/
theorem get_regime_stats_spec (rs : List (Option Regime)) (r : Regime) :
    (get_regime_stats rs r).1 = rs.countP (fun ov => ov == some r) ∧
    (get_regime_stats rs r).2 =
      (if rs.length = 0 then 0
        else ((get_regime_stats rs r).1 : ℚ) / (rs.length : ℚ) * 100) ∧
    countLabel rs Regime.Low + countLabel rs Regime.Medium
        + countLabel rs Regime.High
      = (rs.filterMap id).length := by
  refine ⟨countLabel_eq_countP rs r, ?_, ?_⟩
  · rcases Nat.eq_zero_or_pos rs.length with h0 | hpos
    · simp [get_regime_stats, h0]
    · simp [get_regime_stats, hpos, Nat.pos_iff_ne_zero.mp hpos]
  · simpa [countLabel] using count_three_labels (rs.filterMap id)

/-- Claim C2 (counterexample): for the series `[Low, missing]` the summary
reports the Low percentage as `1 / 2 * 100 = 50`, dividing by the full
length 2, not `1 / 1 * 100 = 100` as division by the non-missing total
would give. -/
theorem get_regime_stats_counterexample :
    get_regime_stats [some Regime.Low, none] Regime.Low = (1, 50) ∧
      (50 : ℚ) ≠ (1 : ℚ) / 1 * 100 := by
  constructor
  · simp [get_regime_stats, countLabel]
    norm_num
  · norm_num

/-! ## Quantile facts used by the classifier claims -/

theorem sortVols_sorted (xs : List ℚ) : (sortVols xs).Sorted (· ≤ ·) :=
  List.sorted_insertionSort _ xs

theorem sortVols_length (xs : List ℚ) : (sortVols xs).length = xs.length :=
  List.length_insertionSort _ xs

theorem sortVols_eq_nil_iff (xs : List ℚ) : sortVols xs = [] ↔ xs = [] := by
  constructor
  · intro h
    have hlen := sortVols_length xs
    rw [h] at hlen
    exact List.length_eq_zero.mp hlen.symm
  · intro h
    subst h
    rfl

theorem getD_mono_of_sorted (v : List ℚ) (hs : v.Sorted (· ≤ ·)) {i j : ℕ}
    (hij : i ≤ j) (hj : j < v.length) : v.getD i 0 ≤ v.getD j 0 := by
  have hi : i < v.length := lt_of_le_of_lt hij hj
  have hrel := hs.rel_get_of_le (a := ⟨i, hi⟩) (b := ⟨j, hj⟩) (Fin.mk_le_mk.mpr hij)
  rw [List.getD_eq_getElem?_getD, List.getD_eq_getElem?_getD,
    List.getElem?_eq_getElem hi, List.getElem?_eq_getElem hj]
  simpa [List.get_eq_getElem] using hrel

theorem floorNat_le {h : ℚ} (h0 : 0 ≤ h) : (((Int.floor h).toNat : ℚ)) ≤ h := by
  have hfl : 0 ≤ Int.floor h := Int.floor_nonneg.mpr h0
  have hcast : (((Int.floor h).toNat : ℤ) : ℚ) = ((Int.floor h : ℤ) : ℚ) := by
    exact_mod_cast congrArg (fun z : ℤ => (z : ℚ)) (Int.toNat_of_nonneg hfl)
  calc (((Int.floor h).toNat : ℚ)) = ((Int.floor h : ℤ) : ℚ) := by exact_mod_cast hcast
    _ ≤ h := Int.floor_le h

theorem le_floorNat_add_one {h : ℚ} (h0 : 0 ≤ h) :
    h ≤ (((Int.floor h).toNat : ℚ)) + 1 := by
  have hfl : 0 ≤ Int.floor h := Int.floor_nonneg.mpr h0
  have hcast : (((Int.floor h).toNat : ℤ) : ℚ) = ((Int.floor h : ℤ) : ℚ) := by
    exact_mod_cast congrArg (fun z : ℤ => (z : ℚ)) (Int.toNat_of_nonneg hfl)
  have hlt := Int.lt_floor_add_one h
  have : (((Int.floor h).toNat : ℚ)) = ((Int.floor h : ℤ) : ℚ) := by exact_mod_cast hcast
  rw [this]
  exact le_of_lt hlt

theorem floorNat_mono {h h' : ℚ} (hhh : h ≤ h') :
    (Int.floor h).toNat ≤ (Int.floor h').toNat :=
  Int.toNat_le_toNat (Int.floor_le_floor hhh)

theorem floorNat_add_one_le {h : ℚ} {n : ℕ} (h0 : 0 ≤ h)
    (hub : h ≤ (n : ℚ) - 1) : (Int.floor h).toNat + 1 ≤ n := by
  have h1 : (((Int.floor h).toNat : ℚ)) ≤ (n : ℚ) - 1 :=
    le_trans (floorNat_le h0) hub
  have h2 : (((Int.floor h).toNat : ℚ)) + 1 ≤ (n : ℚ) := by linarith
  exact_mod_cast h2

theorem interp_mono_core (v : List ℚ) (hs : v.Sorted (· ≤ ·))
    {h h' : ℚ} {lo lo' : ℕ}
    (hl1 : (lo : ℚ) ≤ h) (hl2 : h ≤ (lo : ℚ) + 1)
    (hl1' : (lo' : ℚ) ≤ h')
    (hlolo : lo ≤ lo')
    (hlo'n : lo' + 1 ≤ v.length)
    (hhh : h ≤ h') :
    v.getD lo 0 + (h - (lo : ℚ)) * (v.getD (min (lo + 1) (v.length - 1)) 0 - v.getD lo 0)
      ≤ v.getD lo' 0
          + (h' - (lo' : ℚ)) * (v.getD (min (lo' + 1) (v.length - 1)) 0 - v.getD lo' 0) := by
  have hlon : lo + 1 ≤ v.length := by omega
  have hab : v.getD lo 0 ≤ v.getD (min (lo + 1) (v.length - 1)) 0 :=
    getD_mono_of_sorted v hs (by omega) (by omega)
  have hab' : v.getD lo' 0 ≤ v.getD (min (lo' + 1) (v.length - 1)) 0 :=
    getD_mono_of_sorted v hs (by omega) (by omega)
  rcases eq_or_lt_of_le hlolo with heq | hlt
  · subst heq
    have key : (h - (lo : ℚ)) * (v.getD (min (lo + 1) (v.length - 1)) 0 - v.getD lo 0)
        ≤ (h' - (lo : ℚ)) * (v.getD (min (lo + 1) (v.length - 1)) 0 - v.getD lo 0) :=
      mul_le_mul_of_nonneg_right (by linarith) (by linarith)
    linarith
  · have hba' : v.getD (min (lo + 1) (v.length - 1)) 0 ≤ v.getD lo' 0 :=
      getD_mono_of_sorted v hs (by omega) (by omega)
    have hup : v.getD lo 0
        + (h - (lo : ℚ)) * (v.getD (min (lo + 1) (v.length - 1)) 0 - v.getD lo 0)
        ≤ v.getD (min (lo + 1) (v.length - 1)) 0 := by
      have hfr : h - (lo : ℚ) ≤ 1 := by linarith
      have := mul_le_mul_of_nonneg_right hfr
        (sub_nonneg.mpr hab)
      nlinarith
    have hlow : v.getD lo' 0
        ≤ v.getD lo' 0
          + (h' - (lo' : ℚ)) * (v.getD (min (lo' + 1) (v.length - 1)) 0 - v.getD lo' 0) := by
      have := mul_nonneg (by linarith : (0:ℚ) ≤ h' - (lo' : ℚ))
        (sub_nonneg.mpr hab')
      linarith
    linarith

theorem interp_mono (v : List ℚ) (hs : v.Sorted (· ≤ ·)) (hne : v ≠ [])
    {h h' : ℚ} (h0 : 0 ≤ h) (hhh : h ≤ h') (hub : h' ≤ (v.length : ℚ) - 1) :
    interp v h ≤ interp v h' := by
  have h0' : (0 : ℚ) ≤ h' := le_trans h0 hhh
  have hub0 : h ≤ (v.length : ℚ) - 1 := le_trans hhh hub
  simp only [interp]
  exact interp_mono_core v hs (floorNat_le h0) (le_floorNat_add_one h0)
    (floorNat_le h0') (floorNat_mono hhh) (floorNat_add_one_le h0' hub) hhh

theorem quantileQ_mono (xs : List ℚ) {p p' : ℚ} (hp0 : 0 ≤ p) (hpp : p ≤ p')
    (hp1 : p' ≤ 1) {q q' : ℚ}
    (hq : quantileQ xs p = some q) (hq' : quantileQ xs p' = some q') :
    q ≤ q' := by
  unfold quantileQ at hq hq'
  by_cases hnil : sortVols xs = []
  · rw [if_pos hnil] at hq
    exact absurd hq (by simp)
  · rw [if_neg hnil] at hq hq'
    have hq2 := Option.some.inj hq
    have hq2' := Option.some.inj hq'
    subst hq2 hq2'
    have hnpos : 0 < (sortVols xs).length := List.length_pos.mpr hnil
    have hlen1 : (1 : ℚ) ≤ ((sortVols xs).length : ℚ) := by exact_mod_cast hnpos
    have hnn : (0 : ℚ) ≤ ((sortVols xs).length : ℚ) - 1 := by linarith
    apply interp_mono _ (sortVols_sorted xs) hnil
    · exact mul_nonneg hp0 hnn
    · exact mul_le_mul_of_nonneg_right hpp hnn
    · calc p' * (((sortVols xs).length : ℚ) - 1)
          ≤ 1 * (((sortVols xs).length : ℚ) - 1) :=
            mul_le_mul_of_nonneg_right hp1 hnn
        _ = ((sortVols xs).length : ℚ) - 1 := one_mul _

/-! ## Classification (claims C5, C7, C9) -/

theorem assignRegime_some (p33 p67 : Option ℚ) (x : ℚ) :
    assignRegime p33 p67 (some x)
      = if gtThresh x p67 then some Regime.High
        else if gtThresh x p33 && leThresh x p67 then some Regime.Medium
        else if leThresh x p33 then some Regime.Low else none := rfl

theorem assignRegime_eq_specLabel {q33 q67 : ℚ} (hle : q33 ≤ q67) (x : ℚ) :
    assignRegime (some q33) (some q67) (some x) = some (specLabel q33 q67 x) := by
  rw [assignRegime_some]
  simp only [specLabel, leThresh, gtThresh]
  by_cases h1 : x ≤ q33
  · have h2 : ¬ q33 < x := not_lt.mpr h1
    have h3 : ¬ q67 < x := not_lt.mpr (le_trans h1 hle)
    simp [h1, h2, h3]
  · by_cases h4 : x ≤ q67
    · have h5 : q33 < x := not_le.mp h1
      have h6 : ¬ q67 < x := not_lt.mpr h4
      simp [h1, h4, h5, h6]
    · have h7 : q67 < x := not_le.mp h4
      simp [h1, h4, h7]

/-- Claim C5: the classifier computes the two quantile thresholds once
over the non-missing values and labels every entry by the rule `vol ≤ p33
→ Low`, `p33 < vol ≤ p67 → Medium`, `vol > p67 → High`, a missing
volatility keeping a missing label; thanks to `p33 ≤ p67` (quantiles are
monotone in `p`) this also covers the degenerate case `p33 = p67`. -/
theorem classify_follows_rule (vol : List (Option ℚ)) :
    classify vol = vol.map (fun ov =>
      match ov, quantileQ (vol.filterMap id) (33 / 100),
          quantileQ (vol.filterMap id) (67 / 100) with
      | some x, some q33, some q67 => some (specLabel q33 q67 x)
      | _, _, _ => none) := by
  by_cases hnil : vol.filterMap id = []
  · have hq : ∀ p : ℚ, quantileQ (vol.filterMap id) p = none := by
      intro p
      have : sortVols (vol.filterMap id) = [] := by
        rw [sortVols_eq_nil_iff]
        exact hnil
      simp [quantileQ, this]
    unfold classify
    rw [hq (33 / 100), hq (67 / 100)]
    apply List.map_congr_left
    intro ov hov
    have hnone : ov = none := by
      have hall := List.filterMap_eq_nil_iff.mp hnil
      simpa using hall ov hov
    subst hnone
    simp [assignRegime]
  · have hne : sortVols (vol.filterMap id) ≠ [] := by
      rw [Ne, sortVols_eq_nil_iff]
      exact hnil
    have h33 : quantileQ (vol.filterMap id) (33 / 100)
        = some (interp (sortVols (vol.filterMap id))
            ((33 / 100) * (((sortVols (vol.filterMap id)).length : ℚ) - 1))) := by
      simp [quantileQ, hne]
    have h67 : quantileQ (vol.filterMap id) (67 / 100)
        = some (interp (sortVols (vol.filterMap id))
            ((67 / 100) * (((sortVols (vol.filterMap id)).length : ℚ) - 1))) := by
      simp [quantileQ, hne]
    have hle := quantileQ_mono (vol.filterMap id)
      (by norm_num : (0:ℚ) ≤ 33 / 100) (by norm_num : (33:ℚ)/100 ≤ 67/100)
      (by norm_num : (67:ℚ)/100 ≤ 1) h33 h67
    unfold classify
    rw [h33, h67]
    apply List.map_congr_left
    intro ov hov
    match ov with
    | none => simp [assignRegime]
    | some x => simpa using assignRegime_eq_specLabel hle x

theorem quantileQ_singleton (x p : ℚ) : quantileQ [x] p = some x := by
  have hsv : sortVols [x] = [x] := rfl
  simp [quantileQ, hsv, interp]

/-- Claim C7 (amended): classification never fails on thin data.  With
fewer than 2 non-missing observations it returns a series, not an error:
with none, every label is missing (the NaN thresholds match no mask); with
exactly one, both thresholds equal that value and the single observation
is labelled Low.  Both cases are the map sending each non-missing entry to
Low and keeping missing entries missing. -/
theorem classify_insufficient (vol : List (Option ℚ))
    (hsmall : (vol.filterMap id).length < 2) :
    classify vol = vol.map (Option.map (fun _ => Regime.Low)) := by
  rcases hfm : vol.filterMap id with - | ⟨x, tail⟩
  · have hq : ∀ p : ℚ, quantileQ (vol.filterMap id) p = none := by
      intro p
      have : sortVols (vol.filterMap id) = [] := by
        rw [sortVols_eq_nil_iff]
        exact hfm
      simp [quantileQ, this]
    unfold classify
    rw [hq (33 / 100), hq (67 / 100)]
    apply List.map_congr_left
    intro ov hov
    have hnone : ov = none := by
      have hall := List.filterMap_eq_nil_iff.mp hfm
      simpa using hall ov hov
    subst hnone
    simp [assignRegime]
  · have htail : tail = [] := by
      rw [hfm] at hsmall
      simp only [List.length_cons] at hsmall
      exact List.length_eq_zero.mp (by omega)
    subst htail
    unfold classify
    rw [hfm, quantileQ_singleton, quantileQ_singleton]
    apply List.map_congr_left
    intro ov hov
    match ov with
    | none => simp [assignRegime]
    | some y =>
      have hy : y ∈ vol.filterMap id := List.mem_filterMap.mpr ⟨some y, hov, rfl⟩
      rw [hfm] at hy
      have hyx : y = x := by simpa using hy
      subst hyx
      simp [assignRegime_some, leThresh, gtThresh]

theorem classify_insufficient_witness :
    (([some (5:ℚ), none].filterMap id).length < 2) ∧
      classify [some (5:ℚ), none]
        = List.map (Option.map (fun _ => Regime.Low)) [some (5:ℚ), none] :=
  ⟨by simp, classify_insufficient _ (by simp)⟩

/-- Claim C7 (counterexample): on a series with a single non-missing
observation the classifier raises nothing and returns a labelled series —
the lone value is labelled Low — contradicting the claim that it fails
with InsufficientData and returns no labelled series. -/
theorem classify_single_obs_counterexample :
    classify [some (5:ℚ)] = [some Regime.Low] := by
  have hfm : ([some (5:ℚ)].filterMap id) = [5] := by simp
  unfold classify
  rw [hfm, quantileQ_singleton, quantileQ_singleton]
  simp [assignRegime_some, leThresh, gtThresh]

theorem gtThresh_mono {a b : ℚ} (hab : a ≤ b) (t : Option ℚ)
    (h : gtThresh a t = true) : gtThresh b t = true := by
  cases t with
  | none => simp [gtThresh] at h
  | some q =>
    simp only [gtThresh, decide_eq_true_eq] at h ⊢
    linarith

theorem leThresh_mono {a b : ℚ} (hab : a ≤ b) (t : Option ℚ)
    (h : leThresh b t = true) : leThresh a t = true := by
  cases t with
  | none => simp [leThresh] at h
  | some q =>
    simp only [leThresh, decide_eq_true_eq] at h ⊢
    linarith

theorem gt_le_both_false {x : ℚ} (t : Option ℚ)
    (hgt : gtThresh x t = true) (hle : leThresh x t = true) : False := by
  cases t with
  | none => simp [gtThresh] at hgt
  | some q =>
    simp only [gtThresh, leThresh, decide_eq_true_eq] at hgt hle
    linarith

theorem assignRegime_monotone (p33 p67 : Option ℚ) {a b : ℚ} {la lb : Regime}
    (hab : a ≤ b)
    (ha : assignRegime p33 p67 (some a) = some la)
    (hb : assignRegime p33 p67 (some b) = some lb) :
    regimeOrd la ≤ regimeOrd lb := by
  rw [assignRegime_some] at ha hb
  by_cases hb67 : gtThresh b p67 = true
  · rw [if_pos hb67] at hb
    have hlb : lb = Regime.High := (Option.some.inj hb).symm
    subst hlb
    cases la <;> simp [regimeOrd]
  · have ha67 : ¬ gtThresh a p67 = true := fun hcon =>
      hb67 (gtThresh_mono hab p67 hcon)
    rw [if_neg hb67] at hb
    rw [if_neg ha67] at ha
    by_cases hbM : (gtThresh b p33 && leThresh b p67) = true
    · rw [if_pos hbM] at hb
      have hlb : lb = Regime.Medium := (Option.some.inj hb).symm
      subst hlb
      by_cases haM : (gtThresh a p33 && leThresh a p67) = true
      · rw [if_pos haM] at ha
        have hla : la = Regime.Medium := (Option.some.inj ha).symm
        subst hla
        simp [regimeOrd]
      · rw [if_neg haM] at ha
        by_cases haL : leThresh a p33 = true
        · rw [if_pos haL] at ha
          have hla : la = Regime.Low := (Option.some.inj ha).symm
          subst hla
          simp [regimeOrd]
        · rw [if_neg haL] at ha
          exact absurd ha (by simp)
    · rw [if_neg hbM] at hb
      by_cases hbL : leThresh b p33 = true
      · rw [if_pos hbL] at hb
        have hlb : lb = Regime.Low := (Option.some.inj hb).symm
        subst hlb
        have haL : leThresh a p33 = true := leThresh_mono hab p33 hbL
        have haM : ¬ (gtThresh a p33 && leThresh a p67) = true := by
          intro hcon
          have h33 : gtThresh a p33 = true := by
            simp only [Bool.and_eq_true] at hcon
            exact hcon.1
          exact gt_le_both_false p33 (gtThresh_mono hab p33 h33) hbL
        rw [if_neg haM, if_pos haL] at ha
        have hla : la = Regime.Low := (Option.some.inj ha).symm
        subst hla
        simp [regimeOrd]
      · rw [if_neg hbL] at hb
        exact absurd hb (by simp)

/-- Claim C9: classification is monotone — for any two non-missing
volatilities `a ≤ b` in the same series, the label assigned to `a` is at
most the label assigned to `b` in the order Low < Medium < High. -/
theorem classify_monotone (vol : List (Option ℚ)) (i j : ℕ) (a b : ℚ)
    (la lb : Regime)
    (ha : vol.getD i none = some a) (hb : vol.getD j none = some b)
    (hab : a ≤ b)
    (hla : (classify vol).getD i none = some la)
    (hlb : (classify vol).getD j none = some lb) :
    regimeOrd la ≤ regimeOrd lb := by
  have hi : i < vol.length := by
    by_contra hge
    push_neg at hge
    rw [List.getD_eq_getElem?_getD, List.getElem?_eq_none hge] at ha
    simp at ha
  have hj : j < vol.length := by
    by_contra hge
    push_neg at hge
    rw [List.getD_eq_getElem?_getD, List.getElem?_eq_none hge] at hb
    simp at hb
  have hva : vol[i] = some a := by
    rw [List.getD_eq_getElem?_getD, List.getElem?_eq_getElem hi] at ha
    simpa using ha
  have hvb : vol[j] = some b := by
    rw [List.getD_eq_getElem?_getD, List.getElem?_eq_getElem hj] at hb
    simpa using hb
  unfold classify at hla hlb
  rw [List.getD_eq_getElem?_getD, List.getElem?_map,
    List.getElem?_eq_getElem hi, hva] at hla
  rw [List.getD_eq_getElem?_getD, List.getElem?_map,
    List.getElem?_eq_getElem hj, hvb] at hlb
  simp only [Option.map_some', Option.getD_some] at hla hlb
  exact assignRegime_monotone _ _ hab hla hlb

theorem classify_monotone_witness :
    ([some (1:ℚ), some 2, some 3].getD 0 none = some (1:ℚ)) ∧
      ([some (1:ℚ), some 2, some 3].getD 2 none = some (3:ℚ)) ∧
      ((1:ℚ) ≤ 3) ∧
      ((classify [some (1:ℚ), some 2, some 3]).getD 0 none = some Regime.Low) ∧
      ((classify [some (1:ℚ), some 2, some 3]).getD 2 none = some Regime.High) ∧
      regimeOrd Regime.Low ≤ regimeOrd Regime.High := by
  have hfm : ([some (1:ℚ), some 2, some 3].filterMap id) = [1, 2, 3] := by simp
  have hsv : sortVols [1, 2, 3] = [(1:ℚ), 2, 3] := by
    norm_num [sortVols, List.insertionSort, List.orderedInsert]
  have h33 : quantileQ [(1:ℚ), 2, 3] (33 / 100) = some (83 / 50) := by
    rw [quantileQ, if_neg (by rw [hsv]; simp)]
    rw [hsv]
    norm_num [interp]
  have h67 : quantileQ [(1:ℚ), 2, 3] (67 / 100) = some (117 / 50) := by
    rw [quantileQ, if_neg (by rw [hsv]; simp)]
    rw [hsv]
    norm_num [interp]
  have hLow : (classify [some (1:ℚ), some 2, some 3]).getD 0 none
      = some Regime.Low := by
    unfold classify
    rw [hfm, h33, h67]
    norm_num [assignRegime_some, leThresh, gtThresh]
  have hHigh : (classify [some (1:ℚ), some 2, some 3]).getD 2 none
      = some Regime.High := by
    unfold classify
    rw [hfm, h33, h67]
    norm_num [assignRegime_some, leThresh, gtThresh]
  exact ⟨by simp, by simp, by norm_num, hLow, hHigh,
    classify_monotone [some (1:ℚ), some 2, some 3] 0 2 1 3 Regime.Low Regime.High
      (by simp) (by simp) (by norm_num) hLow hHigh⟩

/-! ## Resilient fetch (claims C4, C8) -/

/-- Claim C4 (amended): with rate-limit failures on attempts 0 and 1 and
success on attempt 2, exactly one advisory warning is emitted and the
result is returned, but the sleeps are `[0.5, 5, 6, 10, 12]`: besides the
politeness delay 0.5 and the rate-limit backoffs `5·2^0 = 5` and
`5·2^1 = 10`, the loop also sleeps its generic pre-attempt backoff
`3·2^attempt` at the top of every attempt after the first (6 and 12
seconds here), so the total slept is 33.5 seconds. -/
theorem load_data_rate_limit_scenario (ticker e0 e1 : String)
    (h0 : isRateLimit e0 = true) (h1 : isRateLimit e1 = true) :
    load_data ticker (fun n => if n = 0 then Outcome.failure e0
        else if n = 1 then Outcome.failure e1 else Outcome.success) 3
      = ⟨true, [1/2, 5, 6, 10, 12], 1, []⟩ ∧
    ((1:ℚ)/2 + (5 + (6 + (10 + (12 + 0)))) = 67/2) := by
  constructor
  · unfold load_data
    norm_num [fetchGo, h0, h1]
  · norm_num

theorem load_data_rate_limit_scenario_witness :
    isRateLimit "429" = true ∧
      load_data "SPY" (fun n => if n = 0 then Outcome.failure "429"
          else if n = 1 then Outcome.failure "429" else Outcome.success) 3
        = ⟨true, [1/2, 5, 6, 10, 12], 1, []⟩ :=
  ⟨by decide,
    (load_data_rate_limit_scenario "SPY" "429" "429" (by decide) (by decide)).1⟩

/-- Claim C4 (counterexample): in the scenario with rate-limit errors on
attempts 0 and 1 (error text `"429"`) and success on attempt 2, exactly
one advisory is emitted, but the total sleep is `67/2 = 33.5` seconds,
not the claimed politeness delay plus the two rate-limit backoffs
`1/2 + 5·2^0 + 5·2^1 = 15.5`: the generic pre-attempt backoff also
sleeps. -/
theorem load_data_sleep_counterexample :
    (load_data "SPY" (fun n => if n = 0 then Outcome.failure "429"
        else if n = 1 then Outcome.failure "429" else Outcome.success) 3).warnings
      = 1 ∧
    (load_data "SPY" (fun n => if n = 0 then Outcome.failure "429"
        else if n = 1 then Outcome.failure "429" else Outcome.success) 3).sleeps.sum
      = 67/2 ∧
    ((67:ℚ)/2 ≠ 1/2 + 5 * 2 ^ 0 + 5 * 2 ^ 1) := by
  have hrl : isRateLimit "429" = true := by decide
  refine ⟨?_, ?_, by norm_num⟩
  · unfold load_data
    norm_num [fetchGo, hrl]
  · unfold load_data
    norm_num [fetchGo, hrl]

/-- Claim C8 (amended): when attempts are exhausted, a rate-limit error is
reported with the fixed generic message — a constant independent of the
error text, so nothing of the provider text influences it — and a
non-rate-limit error is reported with a fixed prefix plus the error text
truncated to its first 100 characters.  (The literal reading of "never
contains the raw error text" fails: an error text that happens to be a
substring of the fixed constant, such as "rate limit" itself, trivially
occurs in it.) -/
theorem finalFailureMessage_sanitized (ticker e : String) :
    (isRateLimit e = true →
      finalFailureMessage ticker e = rateLimitFinalMessage) ∧
    (isRateLimit e = false →
      finalFailureMessage ticker e
          = "Error downloading data for " ++ ticker ++ ": "
            ++ String.mk (e.data.take 100)
        ∧ (String.mk (e.data.take 100)).length ≤ 100) := by
  constructor
  · intro h
    unfold finalFailureMessage
    rw [if_pos h]
  · intro h
    unfold finalFailureMessage otherErrorMessage
    rw [if_neg (by simp [h])]
    refine ⟨rfl, ?_⟩
    have hlen : (String.mk (e.data.take 100)).length = (e.data.take 100).length := rfl
    rw [hlen, List.length_take]
    omega

theorem finalFailureMessage_sanitized_witness :
    (isRateLimit "429" = true ∧
      finalFailureMessage "SPY" "429" = rateLimitFinalMessage) ∧
    (isRateLimit "boom" = false ∧
      finalFailureMessage "SPY" "boom"
          = "Error downloading data for " ++ "SPY" ++ ": "
            ++ String.mk ("boom".data.take 100)
        ∧ (String.mk ("boom".data.take 100)).length ≤ 100) :=
  ⟨⟨by decide, (finalFailureMessage_sanitized "SPY" "429").1 (by decide)⟩,
    ⟨by decide, (finalFailureMessage_sanitized "SPY" "boom").2 (by decide)⟩⟩

/-- Claim C8 (counterexample): the provider error text `"rate limit"` is
classified as rate-limited, and the fixed generic failure message does
contain that text as a substring — so "the message never contains the raw
provider error text" is false as literally stated, even though the message
is a constant independent of the error. -/
theorem finalFailureMessage_contains_counterexample :
    isRateLimit "rate limit" = true ∧
      finalFailureMessage "SPY" "rate limit" = rateLimitFinalMessage ∧
      containsSub "rate limit".data rateLimitFinalMessage.data = true := by
  refine ⟨by decide, ?_, by decide⟩
  unfold finalFailureMessage
  rw [if_pos (by decide : isRateLimit "rate limit" = true)]

/-! ## Transition matrix (claim C6) -/

/-- Claim C6 (spec-modelled): the transition matrix is indexed by the
fixed label order Low, Medium, High and built from valid adjacent pairs;
every row with a nonzero pair total sums to 1, and a row whose from-label
never occurs in a valid pair is all-zero. -/
theorem estimate_transitions_rows (rs : List (Option Regime)) (i : Regime) :
    (rowTotal rs i ≠ 0 →
      estimate_transitions rs i Regime.Low
          + estimate_transitions rs i Regime.Medium
          + estimate_transitions rs i Regime.High = 1) ∧
    (rowTotal rs i = 0 → ∀ j, estimate_transitions rs i j = 0) := by
  constructor
  · intro h
    unfold estimate_transitions
    rw [if_neg h, if_neg h, if_neg h]
    have hQ : ((rowTotal rs i : ℚ)) ≠ 0 := by exact_mod_cast h
    have hsum : (countTrans rs i Regime.Low : ℚ)
        + (countTrans rs i Regime.Medium : ℚ)
        + (countTrans rs i Regime.High : ℚ) = (rowTotal rs i : ℚ) := by
      unfold rowTotal
      push_cast
      ring
    rw [div_add_div_same, div_add_div_same, hsum, div_self hQ]
  · intro h j
    unfold estimate_transitions
    rw [if_pos h]

theorem estimate_transitions_rows_witness :
    rowTotal [some Regime.Low, some Regime.Medium] Regime.Low ≠ 0 ∧
      estimate_transitions [some Regime.Low, some Regime.Medium]
          Regime.Low Regime.Low
        + estimate_transitions [some Regime.Low, some Regime.Medium]
            Regime.Low Regime.Medium
        + estimate_transitions [some Regime.Low, some Regime.Medium]
            Regime.Low Regime.High = 1 :=
  ⟨by decide, (estimate_transitions_rows _ Regime.Low).1 (by decide)⟩

/-! ## Rolling volatility (claim C10) -/

/-- Claim C10: for any window of at least 2 that exceeds the length of the
returns series, the rolling volatility raises nothing and is a series of
the same length in which every entry is missing (no position ever has a
full window of observations). -/
theorem compute_volatility_short_series (returns : List ℚ) (window : ℕ)
    (hw : 2 ≤ window) (hshort : returns.length < window) :
    compute_volatility returns window = List.replicate returns.length none := by
  unfold compute_volatility
  rw [List.eq_replicate_iff]
  constructor
  · simp
  · intro b hb
    rw [List.mem_map] at hb
    obtain ⟨t, ht, rfl⟩ := hb
    rw [List.mem_range] at ht
    rw [if_pos (by omega)]

theorem compute_volatility_short_series_witness :
    2 ≤ 3 ∧ ([(1:ℚ), 2].length < 3) ∧
      compute_volatility [(1:ℚ), 2] 3 = List.replicate ([(1:ℚ), 2].length) none :=
  ⟨by norm_num, by norm_num,
    compute_volatility_short_series [(1:ℚ), 2] 3 (by norm_num) (by norm_num)⟩
